import Mathlib

/-! Verification of the entity-storage and referential-integrity layer of
`src/cnct-mngr-3.py` (class `ContactManager`).

Collections (`Dict[int, Dict]` in the source) are modelled as insertion-ordered
association lists `List (Nat × α)`, matching Python dict semantics: lookup finds
the (unique) entry for a key, assignment to a present key updates the entry in
place, assignment to a fresh key appends, `del` removes the entry.  Interactive
`input()` is modelled by a script of user events (`Ev`), where each entered line
is carried already stripped (the source strips immediately: `input(...).strip()`).
Timestamps (`datetime.now().isoformat()`) are a `String` parameter `now`.
Product prices (`float` in the source) are carried as opaque parsed literals,
with `float(value)` abstracted as a `parseFloat` parameter. -/

namespace CM

/-- Organization record as built in `add_organization` (source lines 229-239). -/
structure OrganizationR where
  id : Nat
  name : String
  oib : String
  address : String
  website : String
  created_at : String
  employee_count : Nat
  customer_count : Nat
  product_count : Nat
deriving DecidableEq

/-- Employee record as built in `add_employee` (source lines 334-343). -/
structure EmployeeR where
  id : Nat
  first_name : String
  last_name : String
  position : String
  phone : String
  email : String
  organization_id : Nat
  created_at : String
deriving DecidableEq

/-- Customer record as built in `add_customer` (source lines 396-405). -/
structure CustomerR where
  id : Nat
  name : String
  contact_person : String
  phone : String
  email : String
  address : String
  organization_id : Nat
  created_at : String
deriving DecidableEq

/-- Product record as built in `add_product` (source lines 463-472).
The `price` field is the opaque literal of the parsed float. -/
structure ProductR where
  id : Nat
  name : String
  code : String
  price : String
  description : String
  manufacturer : String
  organization_id : Nat
  created_at : String
deriving DecidableEq

/-- Insertion-ordered model of a Python `Dict[int, record]`. -/
abbrev Coll (α : Type) := List (Nat × α)

variable {α : Type}

/-- `k in d` / `d[k]` lookup: the entry with key `k` (first match; real dicts
never hold a key twice). -/
def dictLookup (m : Coll α) (k : Nat) : Option α :=
  (m.find? (fun kv => kv.1 == k)).map (fun kv => kv.2)

/-- `d[k] = v`: replace the entry in place when the key is present, else append
(Python dicts keep insertion order and append fresh keys at the end). -/
def dictSet : Coll α → Nat → α → Coll α
  | [], k, v => [(k, v)]
  | kv :: rest, k, v => if kv.1 = k then (k, v) :: rest else kv :: dictSet rest k v

/-- `d.keys()` in order. -/
def dictKeys (m : Coll α) : List Nat := m.map (fun kv => kv.1)

/-- `max(d.keys(), default=0)`. -/
def maxKey (m : Coll α) : Nat := (dictKeys m).foldr max 0

/-- `_generate_id` (source line 110): `max(data_dict.keys(), default=0) + 1`. -/
def generate_id (m : Coll α) : Nat := maxKey m + 1

/-- `len([r for r in coll.values() if r['organization_id'] == org_id])`
(source lines 349, 411, 478), with `proj` extracting the `organization_id`. -/
def countRefs (m : Coll α) (proj : α → Nat) (orgId : Nat) : Nat :=
  (m.filter (fun kv => proj kv.2 == orgId)).length

/-- Keys are pairwise distinct (inherent in a Python dict). -/
def nodupKeysb : Coll α → Bool
  | [] => true
  | kv :: rest => !(rest.any (fun kv2 => kv2.1 == kv.1)) && nodupKeysb rest

/-- The four in-memory collections of `ContactManager` (source lines 42-45). -/
structure State where
  organizations : Coll OrganizationR
  employees : Coll EmployeeR
  customers : Coll CustomerR
  products : Coll ProductR
deriving DecidableEq

/-- Outcome of an add operation, for the error-handling claims: the
`Organization not found!`/`No organizations available` reports of
`_get_valid_org_id` are the spec's `ReferenceError`; a falsy selection
(`if not org_id: return`) drops the operation. -/
inductive AddOutcome
  | refError
  | cancelled
  | added (id : Nat)
deriving DecidableEq

/-- Python `value or ''` on an optional field (source lines 234, 339-340, ...). -/
def pyOr (o : Option String) : String :=
  match o with
  | none => ""
  | some v => v

/-- Mutation part of `add_organization` (source lines 227-242), taking the
collected inputs: allocate the id, build the record with zero counts, insert. -/
def add_organization_core (s : State) (name oib address : String)
    (website : Option String) (now : String) : State × AddOutcome :=
  let orgId := generate_id s.organizations
  let org : OrganizationR :=
    { id := orgId, name := name, oib := oib, address := address,
      website := pyOr website, created_at := now,
      employee_count := 0, customer_count := 0, product_count := 0 }
  ({ s with organizations := dictSet s.organizations orgId org }, AddOutcome.added orgId)

/-- Mutation part of `add_employee` (source lines 313-350), taking the collected
inputs.  `orgId` is the selected organization: `_get_valid_org_id` reports a
missing organization without touching any collection (`refError`), and
`if not org_id: return` (line 314) drops the operation when the selection is
falsy, i.e. the integer `0`.  On success the employee is inserted and the owning
organization's `employee_count` is recomputed from the updated collection. -/
def add_employee_core (s : State) (orgId : Nat) (firstName lastName position : String)
    (phone email : Option String) (now : String) : State × AddOutcome :=
  match dictLookup s.organizations orgId with
  | none => (s, AddOutcome.refError)
  | some org =>
    if orgId = 0 then (s, AddOutcome.cancelled)
    else
      let empId := generate_id s.employees
      let emp : EmployeeR :=
        { id := empId, first_name := firstName, last_name := lastName,
          position := position, phone := pyOr phone, email := pyOr email,
          organization_id := orgId, created_at := now }
      let employees1 := dictSet s.employees empId emp
      let org1 := { org with
        employee_count := countRefs employees1 (fun e => e.organization_id) orgId }
      ({ s with employees := employees1,
                organizations := dictSet s.organizations orgId org1 },
       AddOutcome.added empId)

/-- Mutation part of `add_customer` (source lines 381-412), as for employees. -/
def add_customer_core (s : State) (orgId : Nat) (name : String)
    (contact phone email address : Option String) (now : String) : State × AddOutcome :=
  match dictLookup s.organizations orgId with
  | none => (s, AddOutcome.refError)
  | some org =>
    if orgId = 0 then (s, AddOutcome.cancelled)
    else
      let custId := generate_id s.customers
      let cust : CustomerR :=
        { id := custId, name := name, contact_person := pyOr contact,
          phone := pyOr phone, email := pyOr email, address := pyOr address,
          organization_id := orgId, created_at := now }
      let customers1 := dictSet s.customers custId cust
      let org1 := { org with
        customer_count := countRefs customers1 (fun c => c.organization_id) orgId }
      ({ s with customers := customers1,
                organizations := dictSet s.organizations orgId org1 },
       AddOutcome.added custId)

/-- Mutation part of `add_product` (source lines 442-479), as for employees.
`price` is the already-parsed price literal. -/
def add_product_core (s : State) (orgId : Nat) (name code price : String)
    (description manufacturer : Option String) (now : String) : State × AddOutcome :=
  match dictLookup s.organizations orgId with
  | none => (s, AddOutcome.refError)
  | some org =>
    if orgId = 0 then (s, AddOutcome.cancelled)
    else
      let prodId := generate_id s.products
      let prod : ProductR :=
        { id := prodId, name := name, code := code, price := price,
          description := pyOr description, manufacturer := pyOr manufacturer,
          organization_id := orgId, created_at := now }
      let products1 := dictSet s.products prodId prod
      let org1 := { org with
        product_count := countRefs products1 (fun p => p.organization_id) orgId }
      ({ s with products := products1,
                organizations := dictSet s.organizations orgId org1 },
       AddOutcome.added prodId)

/-- Outcome of `delete_organization`: the `Organization not found!` report of
`_get_valid_org_id` is the spec's `NotFoundError`; `cancelled` covers both the
falsy-id early return and a confirmation other than `DELETE`. -/
inductive DeleteOutcome
  | notFound
  | cancelled
  | deleted
deriving DecidableEq

/-- `delete_organization` (source lines 271-306).  `orgId` is the id the user
asked for: when it is not a key of the organization store, `_get_valid_org_id`
reports the failure and nothing is mutated (`notFound`).  `if not org_id: return`
(line 276) drops the operation for the falsy id `0`.  `confirm` is the stripped
confirmation line; anything but `DELETE` cancels.  Otherwise all employees,
customers and products whose `organization_id` equals `orgId` are removed
(lines 292-294) and the organization entry itself is deleted (line 297). -/
def delete_organization (s : State) (orgId : Nat) (confirm : String) : State × DeleteOutcome :=
  match dictLookup s.organizations orgId with
  | none => (s, DeleteOutcome.notFound)
  | some _ =>
    if orgId = 0 then (s, DeleteOutcome.cancelled)
    else if confirm = "DELETE" then
      ({ organizations := s.organizations.filter (fun kv => kv.1 != orgId),
         employees := s.employees.filter (fun kv => kv.2.organization_id != orgId),
         customers := s.customers.filter (fun kv => kv.2.organization_id != orgId),
         products := s.products.filter (fun kv => kv.2.organization_id != orgId) },
       DeleteOutcome.deleted)
    else (s, DeleteOutcome.cancelled)

/-- One storage-layer operation with its collected inputs. -/
inductive Op
  | addOrg (name oib address : String) (website : Option String) (now : String)
  | addEmp (orgId : Nat) (firstName lastName position : String)
      (phone email : Option String) (now : String)
  | addCust (orgId : Nat) (name : String)
      (contact phone email address : Option String) (now : String)
  | addProd (orgId : Nat) (name code price : String)
      (description manufacturer : Option String) (now : String)
  | delOrg (orgId : Nat) (confirm : String)

/-- Apply one operation to the store. -/
def applyOp (s : State) : Op → State
  | Op.addOrg n o a w t => (add_organization_core s n o a w t).1
  | Op.addEmp g f l p ph em t => (add_employee_core s g f l p ph em t).1
  | Op.addCust g n c ph em a t => (add_customer_core s g n c ph em a t).1
  | Op.addProd g n c pr d mf t => (add_product_core s g n c pr d mf t).1
  | Op.delOrg g c => (delete_organization s g c).1

/-- Apply a sequence of operations in order. -/
def applyOps (s : State) (ops : List Op) : State := ops.foldl applyOp s

/-- Consistency of a store state, per the spec's data-model invariants: every
organization's denormalized `*_count` equals the live count of records of that
kind referencing it; every dependent record references an existing organization
(no orphans); and, inherent in dicts, keys are pairwise distinct. -/
def consistentb (s : State) : Bool :=
  s.organizations.all (fun kv =>
    kv.2.employee_count == countRefs s.employees (fun e => e.organization_id) kv.1 &&
    kv.2.customer_count == countRefs s.customers (fun c => c.organization_id) kv.1 &&
    kv.2.product_count == countRefs s.products (fun p => p.organization_id) kv.1) &&
  s.employees.all (fun kv => (dictLookup s.organizations kv.2.organization_id).isSome) &&
  s.customers.all (fun kv => (dictLookup s.organizations kv.2.organization_id).isSome) &&
  s.products.all (fun kv => (dictLookup s.organizations kv.2.organization_id).isSome) &&
  nodupKeysb s.organizations && nodupKeysb s.employees &&
  nodupKeysb s.customers && nodupKeysb s.products

/-- Identifier well-formedness: all keys strictly positive and pairwise
distinct, in each collection. -/
def goodIdsb (m : Coll α) : Bool :=
  nodupKeysb m && m.all (fun kv => decide (0 < kv.1))

/-- Identifier well-formedness of the whole store. -/
def goodState (s : State) : Bool :=
  goodIdsb s.organizations && goodIdsb s.employees &&
  goodIdsb s.customers && goodIdsb s.products

/-- Decimal digit characters of a natural number, most significant first:
the model of Python `str(k)` applied by `json.dump` when it converts the
integer key `k` of a dict to a JSON object key (source line 68). -/
def natDigits (n : Nat) : List Char :=
  if n < 10 then [Nat.digitChar n]
  else natDigits (n / 10) ++ [Nat.digitChar (n % 10)]
termination_by n
decreasing_by
  exact Nat.div_lt_self (by omega) (by omega)

/-- The text form of an integer key in the durable JSON object. -/
def natToKeyString (n : Nat) : String := String.mk (natDigits n)

/-- Python `int(k)` on a JSON object key, as used by the comprehension
`int(k): v` in `_load_data` (source line 87), for a key made of decimal
digits; any other key makes `int` raise (modelled as `none`). -/
def keyStringToNat? (s : String) : Option Nat :=
  if s.data ≠ [] ∧ s.data.all Char.isDigit then
    some (s.data.foldl (fun a c => a * 10 + (c.toNat - Char.toNat '0')) 0)
  else none

/-- `json.dump(data, ...)` key handling (source line 68): the collection is
written as a JSON object whose keys are the text form of the integer keys,
entries in insertion order; field values pass through unchanged. -/
def encodeKeys (m : Coll α) : List (String × α) := m.map (fun kv => (natToKeyString kv.1, kv.2))

/-- The inverse comprehension in `_load_data` (source line 87): convert every
string key back to an integer, in order; `none` when `int(k)` raises on some
key (the comprehension raises at the first bad key). -/
def decodeKeys : List (String × α) → Option (Coll α)
  | [] => some []
  | kv :: rest =>
    match keyStringToNat? kv.1, decodeKeys rest with
    | some n, some m => some ((n, kv.2) :: m)
    | _, _ => none

/-- What reading the durable file for one kind can yield: the file is absent,
the file is present but `json.load` raises (malformed), or `json.load` yields
the JSON object with its textual keys in file order. -/
inductive FileRead (α : Type)
  | absent
  | malformed
  | object (entries : List (String × α))

/-- `_load_data` (source lines 72-91): an absent file yields an empty
collection with no error; a malformed file is reported (`_show_error`) and
yields an empty collection; a parsed object has every key converted back to an
integer, and a key on which `int` raises is caught by the same handler.  The
Bool is whether the error channel was used. -/
def load_data (r : FileRead α) : Coll α × Bool :=
  match r with
  | FileRead.absent => ([], false)
  | FileRead.malformed => ([], true)
  | FileRead.object entries =>
    match decodeKeys entries with
    | some m => (m, false)
    | none => ([], true)

/-- `_save_data` (source lines 58-70) at the durable-file level.
`open(self.files[data_type], 'w')` truncates the file to empty before
`json.dump` streams the serialized text into it; if `json.dump` raises after
emitting `k` characters, the file is left holding only that prefix and the
exception handler reports the error.  `prev` is the file's previous content
(`none` when absent), `ser` the full serialized text of the new collection
state, and `failAt` is `none` for a successful dump or `some k` for a failure
after `k` characters.  Returns the resulting file content and whether the
error channel was used. -/
def save_data (prev : Option String) (ser : String) (failAt : Option Nat) :
    Option String × Bool :=
  match prev, failAt with
  | _, none => (some ser, false)
  | _, some k => (some (String.mk (ser.data.take k)), true)

/-- One user action at an `input()` prompt: an entered line (already stripped,
as `_get_input` strips immediately) or a Ctrl-C (`KeyboardInterrupt`). -/
inductive Ev
  | entry (s : String)
  | interrupt
deriving DecidableEq

/-- `_get_input` (source lines 152-186) for a `str`-typed field, driven by the
event script.  An empty required line re-prompts; an empty optional line or an
interrupt returns `None`; otherwise the line is returned.  An exhausted script
(`input` raising at end of input) aborts the operation just like a
cancellation, committing nothing. -/
def get_input_str (required : Bool) : List Ev → Option String × List Ev
  | [] => (none, [])
  | Ev.interrupt :: rest => (none, rest)
  | Ev.entry v :: rest =>
    if v = "" then
      if required then get_input_str required rest
      else (none, rest)
    else (some v, rest)

/-- `_get_input` for the `float`-typed price of `add_product`: `float(value)`
is abstracted as `parseFloat`, a failed parse re-prompting as the `ValueError`
branch does; a successfully parsed price is carried as its literal. -/
def get_input_float (parseFloat : String → Option String) (required : Bool) :
    List Ev → Option String × List Ev
  | [] => (none, [])
  | Ev.interrupt :: rest => (none, rest)
  | Ev.entry v :: rest =>
    if v = "" then
      if required then get_input_float parseFloat required rest
      else (none, rest)
    else
      match parseFloat v with
      | none => get_input_float parseFloat required rest
      | some x => (some x, rest)

/-- The prompt loop of `_get_valid_org_id` (source lines 200-206) together with
the `int`-typed `_get_input` it calls: an empty line or a line `int` rejects
re-prompts, an id that is not a key of the organization store is reported
(`Organization not found!`) and re-prompts, a valid id is returned, an
interrupt cancels.  (`int(value)` is modelled for plain decimal-digit input via
`keyStringToNat?`.) -/
def get_valid_org_id_loop (orgs : Coll OrganizationR) : List Ev → Option Nat × List Ev
  | [] => (none, [])
  | Ev.interrupt :: rest => (none, rest)
  | Ev.entry v :: rest =>
    if v = "" then get_valid_org_id_loop orgs rest
    else
      match keyStringToNat? v with
      | none => get_valid_org_id_loop orgs rest
      | some n =>
        if (dictLookup orgs n).isSome then (some n, rest)
        else get_valid_org_id_loop orgs rest

/-- `_get_valid_org_id` (source lines 188-206): with no organizations at all it
reports `No organizations available` and returns `None` at once. -/
def get_valid_org_id (orgs : Coll OrganizationR) (evs : List Ev) : Option Nat × List Ev :=
  if orgs.isEmpty then (none, evs)
  else get_valid_org_id_loop orgs evs

/-- `add_organization` (source lines 209-245) driven by a user-event script.
Each required field aborts the operation when its collected value is falsy
(`if not name: return`, ...); only after all fields are collected is the
record built and inserted. -/
def add_organization (s : State) (now : String) (evs : List Ev) : State :=
  match get_input_str true evs with
  | (none, _) => s
  | (some name, evs1) =>
    if name = "" then s
    else
      match get_input_str true evs1 with
      | (none, _) => s
      | (some oib, evs2) =>
        if oib = "" then s
        else
          match get_input_str true evs2 with
          | (none, _) => s
          | (some address, evs3) =>
            if address = "" then s
            else
              match get_input_str false evs3 with
              | (website, _) =>
                (add_organization_core s name oib address website now).1

/-- `add_employee` (source lines 309-353) driven by a user-event script:
organization selection, three required fields, two optional fields, then the
mutation tail `add_employee_core`. -/
def add_employee (s : State) (now : String) (evs : List Ev) : State :=
  match get_valid_org_id s.organizations evs with
  | (none, _) => s
  | (some orgId, evs1) =>
    if orgId = 0 then s
    else
      match get_input_str true evs1 with
      | (none, _) => s
      | (some firstName, evs2) =>
        if firstName = "" then s
        else
          match get_input_str true evs2 with
          | (none, _) => s
          | (some lastName, evs3) =>
            if lastName = "" then s
            else
              match get_input_str true evs3 with
              | (none, _) => s
              | (some position, evs4) =>
                if position = "" then s
                else
                  match get_input_str false evs4 with
                  | (phone, evs5) =>
                    match get_input_str false evs5 with
                    | (email, _) =>
                      (add_employee_core s orgId firstName lastName position phone email now).1

/-- `add_customer` (source lines 377-415) driven by a user-event script. -/
def add_customer (s : State) (now : String) (evs : List Ev) : State :=
  match get_valid_org_id s.organizations evs with
  | (none, _) => s
  | (some orgId, evs1) =>
    if orgId = 0 then s
    else
      match get_input_str true evs1 with
      | (none, _) => s
      | (some name, evs2) =>
        if name = "" then s
        else
          match get_input_str false evs2 with
          | (contact, evs3) =>
            match get_input_str false evs3 with
            | (phone, evs4) =>
              match get_input_str false evs4 with
              | (email, evs5) =>
                match get_input_str false evs5 with
                | (address, _) =>
                  (add_customer_core s orgId name contact phone email address now).1

/-- `add_product` (source lines 438-482) driven by a user-event script.  The
price check is `if price is None: return` (source line 455), so only a
cancelled or exhausted prompt aborts there. -/
def add_product (parseFloat : String → Option String) (s : State) (now : String)
    (evs : List Ev) : State :=
  match get_valid_org_id s.organizations evs with
  | (none, _) => s
  | (some orgId, evs1) =>
    if orgId = 0 then s
    else
      match get_input_str true evs1 with
      | (none, _) => s
      | (some name, evs2) =>
        if name = "" then s
        else
          match get_input_str true evs2 with
          | (none, _) => s
          | (some code, evs3) =>
            if code = "" then s
            else
              match get_input_float parseFloat true evs3 with
              | (none, _) => s
              | (some price, evs4) =>
                match get_input_str false evs4 with
                | (description, evs5) =>
                  match get_input_str false evs5 with
                  | (manufacturer, _) =>
                    (add_product_core s orgId name code price description manufacturer now).1

/-- Sample organization record for concrete runs. -/
def orgRec (i : Nat) (nm : String) (ec cc pc : Nat) : OrganizationR :=
  { id := i, name := nm, oib := "12345678901", address := "Main St 1", website := "",
    created_at := "2024-01-01T00:00:00", employee_count := ec, customer_count := cc,
    product_count := pc }

/-- Sample employee record referencing organization `g`. -/
def empRec (i g : Nat) : EmployeeR :=
  { id := i, first_name := "Jane", last_name := "Doe", position := "Engineer",
    phone := "", email := "", organization_id := g, created_at := "2024-01-01T00:00:00" }

/-- Sample customer record referencing organization `g`. -/
def custRec (i g : Nat) : CustomerR :=
  { id := i, name := "Client", contact_person := "", phone := "", email := "",
    address := "", organization_id := g, created_at := "2024-01-01T00:00:00" }

/-- Sample product record referencing organization `g`. -/
def prodRec (i g : Nat) : ProductR :=
  { id := i, name := "Widget", code := "WX1", price := "19.99", description := "",
    manufacturer := "", organization_id := g, created_at := "2024-01-01T00:00:00" }

/-- The sample organization used in concrete stores. -/
def orgA : OrganizationR := orgRec 1 ("Acme") 1 1 1

/-- A one-organization store with one record of each dependent kind. -/
def stOne : State :=
  { organizations := [(1, orgA)], employees := [(1, empRec 1 1)],
    customers := [(1, custRec 1 1)], products := [(1, prodRec 1 1)] }

/-- The empty store. -/
def stEmpty : State :=
  { organizations := [], employees := [], customers := [], products := [] }

/-- A store whose organization carries the key `0`: such a store arises when the
organizations file holds the JSON key `"0"`, which `_load_data` restores without
complaint. -/
def stZero : State :=
  { organizations := [(0, orgRec 0 ("Zero") 1 0 0)], employees := [(1, empRec 1 0)],
    customers := [], products := [] }

/-- A user-event script for `add_employee` that selects organization 1, enters
the three required fields, and is interrupted (Ctrl-C) at the optional Phone
prompt; the Email prompt then receives a line. -/
def cexScript : List Ev :=
  [Ev.entry ("1"), Ev.entry ("Jane"), Ev.entry ("Doe"), Ev.entry ("Engineer"),
   Ev.interrupt, Ev.entry ("x")]

/-- Two organizations added to an empty store: ids 1 and 2. -/
def reuseOps2 : List Op :=
  [Op.addOrg ("A") ("11111111111") ("a") none ("t1"),
   Op.addOrg ("B") ("22222222222") ("b") none ("t2")]

/-- Then the organization with the maximal id 2 is deleted. -/
def reuseOps3 : List Op := reuseOps2 ++ [Op.delOrg 2 ("DELETE")]

/-- Then a third organization is added: `max+1` allocation hands out id 2 again. -/
def reuseOps4 : List Op := reuseOps3 ++ [Op.addOrg ("C") ("33333333333") ("c") none ("t3")]

/-- A short run used to exercise the consistency invariant. -/
def demoOps : List Op :=
  [Op.addOrg ("Acme") ("12345678901") ("Main St 1") none ("t1"),
   Op.addEmp 1 ("Jane") ("Doe") ("Engineer") none none ("t2"),
   Op.addCust 1 ("Client") none none none none ("t3"),
   Op.addProd 1 ("Widget") ("WX1") ("19.99") none none ("t4"),
   Op.delOrg 1 ("DELETE")]

/-! Basic facts about the dict model. -/

theorem dictLookup_nil (k : Nat) : dictLookup ([] : Coll α) k = none := rfl

theorem dictLookup_cons (kv : Nat × α) (rest : Coll α) (k : Nat) :
    dictLookup (kv :: rest) k = if kv.1 = k then some kv.2 else dictLookup rest k := by
  simp only [dictLookup, List.find?]
  by_cases h : kv.1 = k
  · simp [h]
  · simp [h, beq_eq_false_iff_ne.mpr h]

theorem mem_dictKeys_le_maxKey {m : Coll α} {k : Nat} (h : k ∈ dictKeys m) : k ≤ maxKey m := by
  induction m with
  | nil => simp [dictKeys] at h
  | cons kv rest ih =>
    have hm : maxKey (kv :: rest) = max kv.1 (maxKey rest) := rfl
    rw [hm]
    rcases List.mem_cons.mp h with h1 | h1
    · exact h1 ▸ Nat.le_max_left _ _
    · exact le_trans (ih h1) (Nat.le_max_right _ _)

theorem mem_dictKeys_of_lookup_isSome {m : Coll α} {k : Nat}
    (h : (dictLookup m k).isSome = true) : k ∈ dictKeys m := by
  induction m with
  | nil => simp [dictLookup_nil] at h
  | cons kv rest ih =>
    rw [dictLookup_cons] at h
    by_cases he : kv.1 = k
    · exact he ▸ List.mem_cons_self _ _
    · rw [if_neg he] at h
      exact List.mem_cons_of_mem _ (ih h)

theorem dictLookup_some_mem {m : Coll α} {k : Nat} {v : α}
    (h : dictLookup m k = some v) : (k, v) ∈ m := by
  induction m with
  | nil => simp [dictLookup_nil] at h
  | cons kv rest ih =>
    rw [dictLookup_cons] at h
    by_cases he : kv.1 = k
    · rw [if_pos he] at h
      have h2 : kv.2 = v := Option.some_injective _ h
      have : kv = (k, v) := by
        obtain ⟨a, b⟩ := kv
        simp only at he h2
        rw [he, h2]
      exact this ▸ List.mem_cons_self _ _
    · rw [if_neg he] at h
      exact List.mem_cons_of_mem _ (ih h)

theorem generate_id_pos (m : Coll α) : 0 < generate_id m := Nat.succ_pos _

theorem lt_generate_id {m : Coll α} {k : Nat} (h : k ∈ dictKeys m) : k < generate_id m :=
  Nat.lt_succ_of_le (mem_dictKeys_le_maxKey h)

theorem dictLookup_generate_id (m : Coll α) : dictLookup m (generate_id m) = none := by
  cases h : dictLookup m (generate_id m) with
  | none => rfl
  | some v =>
    have hmem : generate_id m ∈ dictKeys m :=
      mem_dictKeys_of_lookup_isSome (by rw [h]; rfl)
    exact absurd (lt_generate_id hmem) (lt_irrefl _)

theorem dictSet_of_lookup_none {m : Coll α} {k : Nat} (v : α)
    (h : dictLookup m k = none) : dictSet m k v = m ++ [(k, v)] := by
  induction m with
  | nil => rfl
  | cons kv rest ih =>
    rw [dictLookup_cons] at h
    by_cases he : kv.1 = k
    · rw [if_pos he] at h
      exact absurd h (by simp)
    · rw [if_neg he] at h
      simp only [dictSet, if_neg he]
      rw [ih h]
      rfl

theorem dictLookup_dictSet_self (m : Coll α) (k : Nat) (v : α) :
    dictLookup (dictSet m k v) k = some v := by
  induction m with
  | nil => simp [dictSet, dictLookup_cons]
  | cons kv rest ih =>
    by_cases he : kv.1 = k
    · simp only [dictSet, if_pos he]
      simp [dictLookup_cons]
    · simp only [dictSet, if_neg he]
      rw [dictLookup_cons, if_neg he]
      exact ih

theorem dictLookup_dictSet_ne {p k : Nat} (h : p ≠ k) (m : Coll α) (v : α) :
    dictLookup (dictSet m k v) p = dictLookup m p := by
  induction m with
  | nil => simp [dictSet, dictLookup_cons, dictLookup_nil, Ne.symm h]
  | cons kv rest ih =>
    by_cases he : kv.1 = k
    · simp only [dictSet, if_pos he]
      rw [dictLookup_cons, dictLookup_cons, if_neg (Ne.symm h), he, if_neg (Ne.symm h)]
    · simp only [dictSet, if_neg he]
      rw [dictLookup_cons, dictLookup_cons, ih]

theorem mem_dictKeys_dictSet {m : Coll α} {p k : Nat} {v : α}
    (h : p ∈ dictKeys (dictSet m k v)) : p = k ∨ p ∈ dictKeys m := by
  induction m with
  | nil => simpa [dictSet, dictKeys] using h
  | cons kv rest ih =>
    by_cases he : kv.1 = k
    · simp only [dictSet, if_pos he, dictKeys, List.map_cons] at h
      rcases List.mem_cons.mp h with h1 | h1
      · exact Or.inl h1
      · refine Or.inr ?_
        simp only [dictKeys, List.map_cons]
        exact List.mem_cons_of_mem _ h1
    · simp only [dictSet, if_neg he, dictKeys, List.map_cons] at h
      rcases List.mem_cons.mp h with h1 | h1
      · refine Or.inr ?_
        simp only [dictKeys, List.map_cons]
        exact h1 ▸ List.mem_cons_self _ _
      · rcases ih h1 with h2 | h2
        · exact Or.inl h2
        · refine Or.inr ?_
          simp only [dictKeys, List.map_cons]
          exact List.mem_cons_of_mem _ h2

theorem nodupKeysb_any_false {m : Coll α} {k : Nat}
    (h : m.any (fun kv2 => kv2.1 == k) = false) : k ∉ dictKeys m := by
  intro hmem
  rcases List.mem_map.mp hmem with ⟨kv, hkv, hk⟩
  have : m.any (fun kv2 => kv2.1 == k) = true :=
    List.any_eq_true.mpr ⟨kv, hkv, by simp [hk]⟩
  rw [this] at h
  cases h

theorem nodupKeysb_dictSet {m : Coll α} (k : Nat) (v : α)
    (h : nodupKeysb m = true) : nodupKeysb (dictSet m k v) = true := by
  induction m with
  | nil => simp [dictSet, nodupKeysb]
  | cons kv rest ih =>
    simp only [nodupKeysb, Bool.and_eq_true, Bool.not_eq_true'] at h
    obtain ⟨hany, hrest⟩ := h
    by_cases he : kv.1 = k
    · simp only [dictSet, if_pos he]
      simp only [nodupKeysb, Bool.and_eq_true, Bool.not_eq_true']
      exact ⟨he ▸ hany, hrest⟩
    · simp only [dictSet, if_neg he]
      simp only [nodupKeysb, Bool.and_eq_true, Bool.not_eq_true']
      refine ⟨?_, ih hrest⟩
      by_contra hc
      have hc' : (dictSet rest k v).any (fun kv2 => kv2.1 == kv.1) = true := by
        cases hx : (dictSet rest k v).any (fun kv2 => kv2.1 == kv.1)
        · exact absurd hx hc
        · rfl
      rcases List.any_eq_true.mp hc' with ⟨kv2, hkv2, hkeq⟩
      have hkey : kv.1 ∈ dictKeys (dictSet rest k v) :=
        List.mem_map.mpr ⟨kv2, hkv2, by simpa using hkeq⟩
      rcases mem_dictKeys_dictSet hkey with h1 | h1
      · exact he h1
      · exact nodupKeysb_any_false hany h1

theorem nodupKeysb_filter {m : Coll α} (q : Nat × α → Bool)
    (h : nodupKeysb m = true) : nodupKeysb (m.filter q) = true := by
  induction m with
  | nil => simp [nodupKeysb]
  | cons kv rest ih =>
    simp only [nodupKeysb, Bool.and_eq_true, Bool.not_eq_true'] at h
    obtain ⟨hany, hrest⟩ := h
    rw [List.filter_cons]
    by_cases hq : q kv
    · rw [if_pos hq]
      simp only [nodupKeysb, Bool.and_eq_true, Bool.not_eq_true']
      refine ⟨?_, ih hrest⟩
      cases hx : (rest.filter q).any (fun kv2 => kv2.1 == kv.1)
      · rfl
      · rcases List.any_eq_true.mp hx with ⟨kv2, hkv2, hkeq⟩
        have hmem : kv2 ∈ rest := (List.mem_filter.mp hkv2).1
        have : rest.any (fun kv2 => kv2.1 == kv.1) = true :=
          List.any_eq_true.mpr ⟨kv2, hmem, hkeq⟩
        rw [this] at hany
        cases hany
    · rw [if_neg hq]
      exact ih hrest

theorem mem_dictSet {m : Coll α} {k p : Nat} {v r : α} (hnd : nodupKeysb m = true)
    (h : (p, r) ∈ dictSet m k v) : ((p, r) = (k, v)) ∨ ((p, r) ∈ m ∧ p ≠ k) := by
  induction m with
  | nil =>
    simp only [dictSet, List.mem_singleton] at h
    exact Or.inl h
  | cons kv rest ih =>
    simp only [nodupKeysb, Bool.and_eq_true, Bool.not_eq_true'] at hnd
    obtain ⟨hany, hrest⟩ := hnd
    by_cases he : kv.1 = k
    · simp only [dictSet, if_pos he] at h
      rcases List.mem_cons.mp h with h1 | h1
      · exact Or.inl h1
      · refine Or.inr ⟨List.mem_cons_of_mem _ h1, ?_⟩
        intro hpk
        have : p ∈ dictKeys rest := List.mem_map.mpr ⟨(p, r), h1, rfl⟩
        exact nodupKeysb_any_false hany (by rwa [hpk, ← he] at this)
    · simp only [dictSet, if_neg he] at h
      rcases List.mem_cons.mp h with h1 | h1
      · refine Or.inr ⟨h1 ▸ List.mem_cons_self _ _, ?_⟩
        have : p = kv.1 := by
          have := congrArg Prod.fst h1
          simpa using this
        exact this ▸ he
      · rcases ih hrest h1 with h2 | h2
        · exact Or.inl h2
        · exact Or.inr ⟨List.mem_cons_of_mem _ h2.1, h2.2⟩

theorem countRefs_append (m l : Coll α) (proj : α → Nat) (o : Nat) :
    countRefs (m ++ l) proj o = countRefs m proj o + countRefs l proj o := by
  simp [countRefs, List.filter_append]

theorem countRefs_single (k : Nat) (v : α) (proj : α → Nat) (o : Nat) :
    countRefs [(k, v)] proj o = if proj v = o then 1 else 0 := by
  by_cases h : proj v = o
  · simp [countRefs, List.filter, h]
  · simp [countRefs, List.filter, beq_eq_false_iff_ne.mpr h, h]

theorem countRefs_cons (kv : Nat × α) (rest : Coll α) (proj : α → Nat) (o : Nat) :
    countRefs (kv :: rest) proj o =
      (if proj kv.2 = o then 1 else 0) + countRefs rest proj o := by
  simp only [countRefs, List.filter_cons]
  by_cases hp : proj kv.2 = o
  · simp [hp, Nat.add_comm]
  · simp [hp]

theorem countRefs_filter_ne {p o : Nat} (h : p ≠ o) (m : Coll α) (proj : α → Nat) :
    countRefs (m.filter (fun kv => proj kv.2 != o)) proj p = countRefs m proj p := by
  induction m with
  | nil => rfl
  | cons kv rest ih =>
    rw [List.filter_cons]
    by_cases ho : proj kv.2 = o
    · rw [if_neg (by simp [ho])]
      rw [ih, countRefs_cons, if_neg (by intro hp2; exact h (hp2 ▸ ho)), Nat.zero_add]
    · rw [if_pos (by simp [ho])]
      rw [countRefs_cons, countRefs_cons, ih]

theorem countRefs_eq_zero_of_fresh {m : Coll α} {orgs : Coll OrganizationR} {proj : α → Nat}
    (h : ∀ kv ∈ m, (dictLookup orgs (proj kv.2)).isSome = true) :
    countRefs m proj (generate_id orgs) = 0 := by
  rw [countRefs, List.length_eq_zero]
  rw [List.filter_eq_nil_iff]
  intro kv hkv
  simp only [beq_iff_eq]
  intro heq
  have hmem : proj kv.2 ∈ dictKeys orgs := mem_dictKeys_of_lookup_isSome (h kv hkv)
  have := lt_generate_id hmem
  rw [heq] at this
  exact absurd this (lt_irrefl _)

theorem dictLookup_filter_key_self (m : Coll α) (k : Nat) :
    dictLookup (m.filter (fun kv => kv.1 != k)) k = none := by
  induction m with
  | nil => rfl
  | cons kv rest ih =>
    rw [List.filter_cons]
    by_cases he : kv.1 = k
    · rw [if_neg (by simp [he])]
      exact ih
    · rw [if_pos (by simp [he])]
      rw [dictLookup_cons, if_neg he]
      exact ih

theorem dictLookup_filter_key_ne {p k : Nat} (h : p ≠ k) (m : Coll α) :
    dictLookup (m.filter (fun kv => kv.1 != k)) p = dictLookup m p := by
  induction m with
  | nil => rfl
  | cons kv rest ih =>
    rw [List.filter_cons]
    by_cases he : kv.1 = k
    · rw [if_neg (by simp [he])]
      rw [dictLookup_cons, if_neg (he ▸ fun hh => h hh.symm)]
      exact ih
    · rw [if_pos (by simp [he])]
      rw [dictLookup_cons, dictLookup_cons, ih]

theorem dictLookup_append_isSome {m : Coll α} {p : Nat} (l : Coll α)
    (h : (dictLookup m p).isSome = true) : (dictLookup (m ++ l) p).isSome = true := by
  induction m with
  | nil => simp [dictLookup_nil] at h
  | cons kv rest ih =>
    rw [List.cons_append, dictLookup_cons]
    rw [dictLookup_cons] at h
    by_cases he : kv.1 = p
    · rw [if_pos he]
      rfl
    · rw [if_neg he]
      rw [if_neg he] at h
      exact ih h

theorem dictLookup_dictSet_isSome {m : Coll α} {x k : Nat} (v : α)
    (h : (dictLookup m x).isSome = true) : (dictLookup (dictSet m k v) x).isSome = true := by
  by_cases hx : x = k
  · rw [hx, dictLookup_dictSet_self]
    rfl
  · rw [dictLookup_dictSet_ne hx]
    exact h

/-! Facts about the decimal key codec of the durable format. -/

theorem digitChar_isDigit {m : Nat} (h : m < 10) : (Nat.digitChar m).isDigit = true := by
  interval_cases m <;> decide

theorem digitChar_val {m : Nat} (h : m < 10) :
    (Nat.digitChar m).toNat - Char.toNat '0' = m := by
  interval_cases m <;> decide

theorem natDigits_ne_nil (n : Nat) : natDigits n ≠ [] := by
  rw [natDigits]
  by_cases h : n < 10
  · simp [h]
  · simp [h]

theorem natDigits_all_isDigit (n : Nat) : (natDigits n).all Char.isDigit = true := by
  induction n using Nat.strong_induction_on with
  | _ n ih =>
    rw [natDigits]
    by_cases h : n < 10
    · rw [if_pos h]
      simp [digitChar_isDigit h]
    · rw [if_neg h]
      rw [List.all_append, Bool.and_eq_true]
      refine ⟨ih (n / 10) (Nat.div_lt_self (by omega) (by omega)), ?_⟩
      simp [digitChar_isDigit (Nat.mod_lt n (by omega))]

theorem foldl_natDigits (n a : Nat) :
    (natDigits n).foldl (fun acc c => acc * 10 + (c.toNat - Char.toNat '0')) a =
      a * 10 ^ (natDigits n).length + n := by
  induction n using Nat.strong_induction_on generalizing a with
  | _ n ih =>
    rw [natDigits]
    by_cases h : n < 10
    · rw [if_pos h]
      simp only [List.foldl, List.length_cons, List.length_nil, pow_one, zero_add]
      rw [digitChar_val h]
    · rw [if_neg h]
      rw [List.foldl_append, List.length_append]
      have hd : n / 10 < n := Nat.div_lt_self (by omega) (by omega)
      rw [ih (n / 10) hd]
      simp only [List.foldl, List.length_cons, List.length_nil]
      rw [digitChar_val (Nat.mod_lt n (by omega))]
      rw [pow_succ, ← Nat.mul_assoc]
      have hdm := Nat.div_add_mod n 10
      generalize a * 10 ^ (natDigits (n / 10)).length = b
      omega

theorem keyStringToNat?_natToKeyString (n : Nat) :
    keyStringToNat? (natToKeyString n) = some n := by
  unfold keyStringToNat? natToKeyString
  rw [if_pos ⟨natDigits_ne_nil n, natDigits_all_isDigit n⟩]
  rw [foldl_natDigits]
  simp

theorem decodeKeys_encodeKeys (m : Coll α) : decodeKeys (encodeKeys m) = some m := by
  induction m with
  | nil => rfl
  | cons kv rest ih =>
    simp only [encodeKeys, List.map_cons] at ih ⊢
    rw [decodeKeys, keyStringToNat?_natToKeyString, ih]

/-! Facts about the interactive input layer. -/

theorem get_input_str_required_ne {evs rest : List Ev} {v : String}
    (h : get_input_str true evs = (some v, rest)) : v ≠ "" := by
  induction evs with
  | nil => simp [get_input_str] at h
  | cons e tl ih =>
    cases e with
    | interrupt => simp [get_input_str] at h
    | entry w =>
      by_cases hw : w = ""
      · rw [get_input_str, if_pos hw, if_pos rfl] at h
        exact ih h
      · rw [get_input_str, if_neg hw] at h
        injection h with h1 h2
        injection h1 with h3
        exact h3 ▸ hw

theorem get_valid_org_id_loop_some {orgs : Coll OrganizationR} {evs rest : List Ev} {n : Nat}
    (h : get_valid_org_id_loop orgs evs = (some n, rest)) :
    (dictLookup orgs n).isSome = true := by
  induction evs with
  | nil => simp [get_valid_org_id_loop] at h
  | cons e tl ih =>
    cases e with
    | interrupt => simp [get_valid_org_id_loop] at h
    | entry w =>
      by_cases hw : w = ""
      · rw [get_valid_org_id_loop, if_pos hw] at h
        exact ih h
      · rw [get_valid_org_id_loop, if_neg hw] at h
        cases hk : keyStringToNat? w with
        | none =>
          simp only [hk] at h
          exact ih h
        | some j =>
          simp only [hk] at h
          by_cases hj : (dictLookup orgs j).isSome = true
          · rw [if_pos hj] at h
            have : j = n := by
              have := congrArg Prod.fst h
              simpa using this
            exact this ▸ hj
          · rw [if_neg hj] at h
            exact ih h

theorem get_valid_org_id_some {orgs : Coll OrganizationR} {evs rest : List Ev} {n : Nat}
    (h : get_valid_org_id orgs evs = (some n, rest)) :
    (dictLookup orgs n).isSome = true := by
  unfold get_valid_org_id at h
  by_cases he : orgs.isEmpty
  · rw [if_pos he] at h
    exact absurd (congrArg Prod.fst h) (by simp)
  · rw [if_neg he] at h
    exact get_valid_org_id_loop_some h

theorem get_input_float_some {pf : String → Option String} {evs rest : List Ev} {x : String}
    (h : get_input_float pf true evs = (some x, rest)) : ∃ v, pf v = some x := by
  induction evs with
  | nil => simp [get_input_float] at h
  | cons e tl ih =>
    cases e with
    | interrupt => simp [get_input_float] at h
    | entry w =>
      by_cases hw : w = ""
      · rw [get_input_float, if_pos hw, if_pos rfl] at h
        exact ih h
      · rw [get_input_float, if_neg hw] at h
        cases hp : pf w with
        | none =>
          simp only [hp] at h
          exact ih h
        | some y =>
          simp only [hp] at h
          have : y = x := by
            have := congrArg Prod.fst h
            simpa using this
          exact ⟨w, this ▸ hp⟩

/-! Preservation of the consistency invariant by every storage operation. -/

theorem consistentb_iff (s : State) : consistentb s = true ↔
    ((∀ kv ∈ s.organizations,
        kv.2.employee_count = countRefs s.employees (fun e => e.organization_id) kv.1 ∧
        kv.2.customer_count = countRefs s.customers (fun c => c.organization_id) kv.1 ∧
        kv.2.product_count = countRefs s.products (fun p => p.organization_id) kv.1) ∧
     (∀ kv ∈ s.employees, (dictLookup s.organizations kv.2.organization_id).isSome = true) ∧
     (∀ kv ∈ s.customers, (dictLookup s.organizations kv.2.organization_id).isSome = true) ∧
     (∀ kv ∈ s.products, (dictLookup s.organizations kv.2.organization_id).isSome = true) ∧
     nodupKeysb s.organizations = true ∧ nodupKeysb s.employees = true ∧
     nodupKeysb s.customers = true ∧ nodupKeysb s.products = true) := by
  simp only [consistentb, Bool.and_eq_true, List.all_eq_true, beq_iff_eq, and_assoc]

theorem consistent_addOrg (s : State) (nm oib addr : String) (w : Option String) (t : String)
    (h : consistentb s = true) :
    consistentb (add_organization_core s nm oib addr w t).1 = true := by
  rw [consistentb_iff] at h
  obtain ⟨hcnt, hoe, hoc, hop, hno, hne, hnc, hnp⟩ := h
  unfold add_organization_core
  dsimp only
  rw [consistentb_iff]
  dsimp only
  have hfresh : dictLookup s.organizations (generate_id s.organizations) = none :=
    dictLookup_generate_id _
  rw [dictSet_of_lookup_none _ hfresh]
  refine ⟨?_, ?_, ?_, ?_, ?_, hne, hnc, hnp⟩
  · intro kv hkv
    rcases List.mem_append.mp hkv with hm | hm
    · exact hcnt kv hm
    · rw [List.mem_singleton] at hm
      subst hm
      exact ⟨(countRefs_eq_zero_of_fresh hoe).symm,
             (countRefs_eq_zero_of_fresh hoc).symm,
             (countRefs_eq_zero_of_fresh hop).symm⟩
  · intro kv hkv
    exact dictLookup_append_isSome _ (hoe kv hkv)
  · intro kv hkv
    exact dictLookup_append_isSome _ (hoc kv hkv)
  · intro kv hkv
    exact dictLookup_append_isSome _ (hop kv hkv)
  · rw [← dictSet_of_lookup_none _ hfresh]
    exact nodupKeysb_dictSet _ _ hno

theorem consistent_addEmp (s : State) (g : Nat) (f l p : String) (ph em : Option String)
    (t : String) (h : consistentb s = true) :
    consistentb (add_employee_core s g f l p ph em t).1 = true := by
  rw [consistentb_iff] at h
  obtain ⟨hcnt, hoe, hoc, hop, hno, hne, hnc, hnp⟩ := h
  unfold add_employee_core
  cases hl : dictLookup s.organizations g with
  | none =>
    simp only [hl]
    rw [consistentb_iff]
    exact ⟨hcnt, hoe, hoc, hop, hno, hne, hnc, hnp⟩
  | some org =>
    simp only [hl]
    by_cases hg : g = 0
    · rw [if_pos hg]
      rw [consistentb_iff]
      exact ⟨hcnt, hoe, hoc, hop, hno, hne, hnc, hnp⟩
    · rw [if_neg hg]
      dsimp only
      rw [consistentb_iff]
      dsimp only
      have hfreshE : dictLookup s.employees (generate_id s.employees) = none :=
        dictLookup_generate_id _
      rw [dictSet_of_lookup_none _ hfreshE]
      refine ⟨?_, ?_, ?_, ?_, nodupKeysb_dictSet _ _ hno, ?_, hnc, hnp⟩
      · intro kv hkv
        obtain ⟨q, r⟩ := kv
        rcases mem_dictSet hno hkv with heq | ⟨hm, hqg⟩
        · injection heq with hq hr
          subst hr
          subst hq
          dsimp only
          obtain ⟨_, hcc, hpc⟩ := hcnt (_, org) (dictLookup_some_mem hl)
          exact ⟨rfl, hcc, hpc⟩
        · obtain ⟨hec, hcc, hpc⟩ := hcnt (q, r) hm
          refine ⟨?_, hcc, hpc⟩
          rw [hec, countRefs_append, countRefs_single]
          dsimp only
          rw [if_neg (fun hh => hqg (hh.symm)), Nat.add_zero]
      · intro kv hkv
        rcases List.mem_append.mp hkv with hm | hm
        · exact dictLookup_dictSet_isSome _ (hoe kv hm)
        · rw [List.mem_singleton] at hm
          subst hm
          dsimp only
          rw [dictLookup_dictSet_self]
          rfl
      · intro kv hkv
        exact dictLookup_dictSet_isSome _ (hoc kv hkv)
      · intro kv hkv
        exact dictLookup_dictSet_isSome _ (hop kv hkv)
      · rw [← dictSet_of_lookup_none _ hfreshE]
        exact nodupKeysb_dictSet _ _ hne

theorem consistent_addCust (s : State) (g : Nat) (nm : String)
    (ct ph em ad : Option String) (t : String) (h : consistentb s = true) :
    consistentb (add_customer_core s g nm ct ph em ad t).1 = true := by
  rw [consistentb_iff] at h
  obtain ⟨hcnt, hoe, hoc, hop, hno, hne, hnc, hnp⟩ := h
  unfold add_customer_core
  cases hl : dictLookup s.organizations g with
  | none =>
    simp only [hl]
    rw [consistentb_iff]
    exact ⟨hcnt, hoe, hoc, hop, hno, hne, hnc, hnp⟩
  | some org =>
    simp only [hl]
    by_cases hg : g = 0
    · rw [if_pos hg]
      rw [consistentb_iff]
      exact ⟨hcnt, hoe, hoc, hop, hno, hne, hnc, hnp⟩
    · rw [if_neg hg]
      dsimp only
      rw [consistentb_iff]
      dsimp only
      have hfreshC : dictLookup s.customers (generate_id s.customers) = none :=
        dictLookup_generate_id _
      rw [dictSet_of_lookup_none _ hfreshC]
      refine ⟨?_, ?_, ?_, ?_, nodupKeysb_dictSet _ _ hno, hne, ?_, hnp⟩
      · intro kv hkv
        obtain ⟨q, r⟩ := kv
        rcases mem_dictSet hno hkv with heq | ⟨hm, hqg⟩
        · injection heq with hq hr
          subst hr
          subst hq
          dsimp only
          obtain ⟨hec, _, hpc⟩ := hcnt (_, org) (dictLookup_some_mem hl)
          exact ⟨hec, rfl, hpc⟩
        · obtain ⟨hec, hcc, hpc⟩ := hcnt (q, r) hm
          refine ⟨hec, ?_, hpc⟩
          rw [hcc, countRefs_append, countRefs_single]
          dsimp only
          rw [if_neg (fun hh => hqg (hh.symm)), Nat.add_zero]
      · intro kv hkv
        exact dictLookup_dictSet_isSome _ (hoe kv hkv)
      · intro kv hkv
        rcases List.mem_append.mp hkv with hm | hm
        · exact dictLookup_dictSet_isSome _ (hoc kv hm)
        · rw [List.mem_singleton] at hm
          subst hm
          dsimp only
          rw [dictLookup_dictSet_self]
          rfl
      · intro kv hkv
        exact dictLookup_dictSet_isSome _ (hop kv hkv)
      · rw [← dictSet_of_lookup_none _ hfreshC]
        exact nodupKeysb_dictSet _ _ hnc

theorem consistent_addProd (s : State) (g : Nat) (nm cd pr : String)
    (de mf : Option String) (t : String) (h : consistentb s = true) :
    consistentb (add_product_core s g nm cd pr de mf t).1 = true := by
  rw [consistentb_iff] at h
  obtain ⟨hcnt, hoe, hoc, hop, hno, hne, hnc, hnp⟩ := h
  unfold add_product_core
  cases hl : dictLookup s.organizations g with
  | none =>
    simp only [hl]
    rw [consistentb_iff]
    exact ⟨hcnt, hoe, hoc, hop, hno, hne, hnc, hnp⟩
  | some org =>
    simp only [hl]
    by_cases hg : g = 0
    · rw [if_pos hg]
      rw [consistentb_iff]
      exact ⟨hcnt, hoe, hoc, hop, hno, hne, hnc, hnp⟩
    · rw [if_neg hg]
      dsimp only
      rw [consistentb_iff]
      dsimp only
      have hfreshP : dictLookup s.products (generate_id s.products) = none :=
        dictLookup_generate_id _
      rw [dictSet_of_lookup_none _ hfreshP]
      refine ⟨?_, ?_, ?_, ?_, nodupKeysb_dictSet _ _ hno, hne, hnc, ?_⟩
      · intro kv hkv
        obtain ⟨q, r⟩ := kv
        rcases mem_dictSet hno hkv with heq | ⟨hm, hqg⟩
        · injection heq with hq hr
          subst hr
          subst hq
          dsimp only
          obtain ⟨hec, hcc, _⟩ := hcnt (_, org) (dictLookup_some_mem hl)
          exact ⟨hec, hcc, rfl⟩
        · obtain ⟨hec, hcc, hpc⟩ := hcnt (q, r) hm
          refine ⟨hec, hcc, ?_⟩
          rw [hpc, countRefs_append, countRefs_single]
          dsimp only
          rw [if_neg (fun hh => hqg (hh.symm)), Nat.add_zero]
      · intro kv hkv
        exact dictLookup_dictSet_isSome _ (hoe kv hkv)
      · intro kv hkv
        exact dictLookup_dictSet_isSome _ (hoc kv hkv)
      · intro kv hkv
        rcases List.mem_append.mp hkv with hm | hm
        · exact dictLookup_dictSet_isSome _ (hop kv hm)
        · rw [List.mem_singleton] at hm
          subst hm
          dsimp only
          rw [dictLookup_dictSet_self]
          rfl
      · rw [← dictSet_of_lookup_none _ hfreshP]
        exact nodupKeysb_dictSet _ _ hnp

theorem consistent_delOrg (s : State) (g : Nat) (c : String) (h : consistentb s = true) :
    consistentb (delete_organization s g c).1 = true := by
  rw [consistentb_iff] at h
  obtain ⟨hcnt, hoe, hoc, hop, hno, hne, hnc, hnp⟩ := h
  unfold delete_organization
  cases hl : dictLookup s.organizations g with
  | none =>
    simp only [hl]
    rw [consistentb_iff]
    exact ⟨hcnt, hoe, hoc, hop, hno, hne, hnc, hnp⟩
  | some org =>
    simp only [hl]
    by_cases hg : g = 0
    · rw [if_pos hg]
      rw [consistentb_iff]
      exact ⟨hcnt, hoe, hoc, hop, hno, hne, hnc, hnp⟩
    · rw [if_neg hg]
      by_cases hc : c = "DELETE"
      · rw [if_pos hc]
        rw [consistentb_iff]
        dsimp only
        refine ⟨?_, ?_, ?_, ?_, nodupKeysb_filter _ hno, nodupKeysb_filter _ hne,
                nodupKeysb_filter _ hnc, nodupKeysb_filter _ hnp⟩
        · intro kv hkv
          obtain ⟨hm, hq⟩ := List.mem_filter.mp hkv
          have hqg : kv.1 ≠ g := by simpa using hq
          obtain ⟨hec, hcc, hpc⟩ := hcnt kv hm
          exact ⟨by rw [hec, countRefs_filter_ne hqg],
                 by rw [hcc, countRefs_filter_ne hqg],
                 by rw [hpc, countRefs_filter_ne hqg]⟩
        · intro kv hkv
          obtain ⟨hm, hq⟩ := List.mem_filter.mp hkv
          have hqg : kv.2.organization_id ≠ g := by simpa using hq
          rw [dictLookup_filter_key_ne hqg]
          exact hoe kv hm
        · intro kv hkv
          obtain ⟨hm, hq⟩ := List.mem_filter.mp hkv
          have hqg : kv.2.organization_id ≠ g := by simpa using hq
          rw [dictLookup_filter_key_ne hqg]
          exact hoc kv hm
        · intro kv hkv
          obtain ⟨hm, hq⟩ := List.mem_filter.mp hkv
          have hqg : kv.2.organization_id ≠ g := by simpa using hq
          rw [dictLookup_filter_key_ne hqg]
          exact hop kv hm
      · rw [if_neg hc]
        rw [consistentb_iff]
        exact ⟨hcnt, hoe, hoc, hop, hno, hne, hnc, hnp⟩

theorem consistent_applyOp (s : State) (op : Op) (h : consistentb s = true) :
    consistentb (applyOp s op) = true := by
  cases op with
  | addOrg n o a w t => exact consistent_addOrg s n o a w t h
  | addEmp g f l p ph em t => exact consistent_addEmp s g f l p ph em t h
  | addCust g n c ph em a t => exact consistent_addCust s g n c ph em a t h
  | addProd g n c pr d mf t => exact consistent_addProd s g n c pr d mf t h
  | delOrg g c => exact consistent_delOrg s g c h

/-! Preservation of identifier well-formedness by every storage operation. -/

theorem goodIdsb_dictSet_pos {m : Coll α} {k : Nat} (v : α) (hk : 0 < k)
    (h : goodIdsb m = true) : goodIdsb (dictSet m k v) = true := by
  simp only [goodIdsb, Bool.and_eq_true, List.all_eq_true, decide_eq_true_eq] at h ⊢
  obtain ⟨hnd, hpos⟩ := h
  refine ⟨nodupKeysb_dictSet _ _ hnd, ?_⟩
  intro kv hkv
  have hkm : kv.1 ∈ dictKeys (dictSet m k v) := List.mem_map.mpr ⟨kv, hkv, rfl⟩
  rcases mem_dictKeys_dictSet hkm with h1 | h1
  · exact h1 ▸ hk
  · rcases List.mem_map.mp h1 with ⟨kv2, hkv2, hk2⟩
    exact hk2 ▸ hpos kv2 hkv2

theorem goodIdsb_filter {m : Coll α} (q : Nat × α → Bool) (h : goodIdsb m = true) :
    goodIdsb (m.filter q) = true := by
  simp only [goodIdsb, Bool.and_eq_true, List.all_eq_true, decide_eq_true_eq] at h ⊢
  obtain ⟨hnd, hpos⟩ := h
  exact ⟨nodupKeysb_filter _ hnd, fun kv hkv => hpos kv (List.mem_filter.mp hkv).1⟩

theorem good_applyOp (s : State) (op : Op) (h : goodState s = true) :
    goodState (applyOp s op) = true := by
  simp only [goodState, Bool.and_eq_true, and_assoc] at h
  obtain ⟨ho, he, hc, hp⟩ := h
  cases op with
  | addOrg n o a w t =>
    unfold applyOp add_organization_core
    dsimp only
    simp only [goodState, Bool.and_eq_true, and_assoc]
    exact ⟨goodIdsb_dictSet_pos _ (generate_id_pos _) ho, he, hc, hp⟩
  | addEmp g f l p ph em t =>
    unfold applyOp add_employee_core
    cases hl : dictLookup s.organizations g with
    | none =>
      simp only [hl]
      simp only [goodState, Bool.and_eq_true, and_assoc]
      exact ⟨ho, he, hc, hp⟩
    | some org =>
      simp only [hl]
      by_cases hg : g = 0
      · rw [if_pos hg]
        simp only [goodState, Bool.and_eq_true, and_assoc]
        exact ⟨ho, he, hc, hp⟩
      · rw [if_neg hg]
        dsimp only
        simp only [goodState, Bool.and_eq_true, and_assoc]
        exact ⟨goodIdsb_dictSet_pos _ (Nat.pos_of_ne_zero hg) ho,
               goodIdsb_dictSet_pos _ (generate_id_pos _) he, hc, hp⟩
  | addCust g n c2 ph em a t =>
    unfold applyOp add_customer_core
    cases hl : dictLookup s.organizations g with
    | none =>
      simp only [hl]
      simp only [goodState, Bool.and_eq_true, and_assoc]
      exact ⟨ho, he, hc, hp⟩
    | some org =>
      simp only [hl]
      by_cases hg : g = 0
      · rw [if_pos hg]
        simp only [goodState, Bool.and_eq_true, and_assoc]
        exact ⟨ho, he, hc, hp⟩
      · rw [if_neg hg]
        dsimp only
        simp only [goodState, Bool.and_eq_true, and_assoc]
        exact ⟨goodIdsb_dictSet_pos _ (Nat.pos_of_ne_zero hg) ho, he,
               goodIdsb_dictSet_pos _ (generate_id_pos _) hc, hp⟩
  | addProd g n c2 pr d mf t =>
    unfold applyOp add_product_core
    cases hl : dictLookup s.organizations g with
    | none =>
      simp only [hl]
      simp only [goodState, Bool.and_eq_true, and_assoc]
      exact ⟨ho, he, hc, hp⟩
    | some org =>
      simp only [hl]
      by_cases hg : g = 0
      · rw [if_pos hg]
        simp only [goodState, Bool.and_eq_true, and_assoc]
        exact ⟨ho, he, hc, hp⟩
      · rw [if_neg hg]
        dsimp only
        simp only [goodState, Bool.and_eq_true, and_assoc]
        exact ⟨goodIdsb_dictSet_pos _ (Nat.pos_of_ne_zero hg) ho, he, hc,
               goodIdsb_dictSet_pos _ (generate_id_pos _) hp⟩
  | delOrg g c2 =>
    unfold applyOp delete_organization
    cases hl : dictLookup s.organizations g with
    | none =>
      simp only [hl]
      simp only [goodState, Bool.and_eq_true, and_assoc]
      exact ⟨ho, he, hc, hp⟩
    | some org =>
      simp only [hl]
      by_cases hg : g = 0
      · rw [if_pos hg]
        simp only [goodState, Bool.and_eq_true, and_assoc]
        exact ⟨ho, he, hc, hp⟩
      · rw [if_neg hg]
        by_cases hcf : c2 = "DELETE"
        · rw [if_pos hcf]
          dsimp only
          simp only [goodState, Bool.and_eq_true, and_assoc]
          exact ⟨goodIdsb_filter _ ho, goodIdsb_filter _ he,
                 goodIdsb_filter _ hc, goodIdsb_filter _ hp⟩
        · rw [if_neg hcf]
          simp only [goodState, Bool.and_eq_true, and_assoc]
          exact ⟨ho, he, hc, hp⟩

/-! The claims. -/

/-- C1 counterexample: the claim fails as stated for the organization key `0`.
Such a key is loadable (the organizations file holding the JSON key `"0"` is
restored without complaint), and `delete_organization` then runs into the falsy
guard `if not org_id: return` (source line 276): with confirmation typed, the
organization and its dependent records all survive. -/
theorem C1_counterexample :
    (dictLookup stZero.organizations 0).isSome = true ∧
    delete_organization stZero 0 ("DELETE") = (stZero, DeleteOutcome.cancelled) ∧
    (dictLookup (delete_organization stZero 0 ("DELETE")).1.organizations 0).isSome = true ∧
    (delete_organization stZero 0 ("DELETE")).1.employees.length = 1 :=
  ⟨rfl, rfl, rfl, rfl⟩

/-- C1 (amended): for every nonzero organization id present in the store,
`delete_organization` on that id with confirmation `DELETE` removes the
organization itself and every employee, customer and product referencing it:
afterwards no record of the three dependent collections references it. -/
theorem C1_delete_cascade (s : State) (orgId : Nat) (h0 : orgId ≠ 0)
    (hmem : (dictLookup s.organizations orgId).isSome = true) :
    dictLookup (delete_organization s orgId ("DELETE")).1.organizations orgId = none ∧
    (∀ kv ∈ (delete_organization s orgId ("DELETE")).1.employees,
        kv.2.organization_id ≠ orgId) ∧
    (∀ kv ∈ (delete_organization s orgId ("DELETE")).1.customers,
        kv.2.organization_id ≠ orgId) ∧
    (∀ kv ∈ (delete_organization s orgId ("DELETE")).1.products,
        kv.2.organization_id ≠ orgId) ∧
    (delete_organization s orgId ("DELETE")).2 = DeleteOutcome.deleted := by
  obtain ⟨org, hl⟩ := Option.isSome_iff_exists.mp hmem
  unfold delete_organization
  simp only [hl]
  rw [if_neg h0, if_pos trivial]
  refine ⟨dictLookup_filter_key_self _ _, ?_, ?_, ?_, rfl⟩
  · intro kv hkv
    have hq := (List.mem_filter.mp hkv).2
    simpa using hq
  · intro kv hkv
    have hq := (List.mem_filter.mp hkv).2
    simpa using hq
  · intro kv hkv
    have hq := (List.mem_filter.mp hkv).2
    simpa using hq

/-- Witness for C1 at the one-organization store. -/
theorem C1_witness :
    dictLookup (delete_organization stOne 1 ("DELETE")).1.organizations 1 = none ∧
    (∀ kv ∈ (delete_organization stOne 1 ("DELETE")).1.employees,
        kv.2.organization_id ≠ 1) ∧
    (∀ kv ∈ (delete_organization stOne 1 ("DELETE")).1.customers,
        kv.2.organization_id ≠ 1) ∧
    (∀ kv ∈ (delete_organization stOne 1 ("DELETE")).1.products,
        kv.2.organization_id ≠ 1) ∧
    (delete_organization stOne 1 ("DELETE")).2 = DeleteOutcome.deleted :=
  C1_delete_cascade stOne 1 (by decide) (by rfl)

/-- C2: after every sequence of storage operations applied to a consistent
state, every organization's `employee_count`, `customer_count` and
`product_count` equal the number of live employees, customers and products
whose `organization_id` is that organization's id (the `consistentb` invariant,
which also carries referential integrity and key uniqueness, is preserved by
every add and by organization deletion). -/
theorem C2_count_consistency (s : State) (ops : List Op) (h : consistentb s = true) :
    consistentb (applyOps s ops) = true := by
  induction ops generalizing s with
  | nil => exact h
  | cons op tl ih => exact ih _ (consistent_applyOp s op h)

/-- Witness for C2: a run that adds one organization, one record of each
dependent kind, and then cascade-deletes. -/
theorem C2_witness : consistentb (applyOps stEmpty demoOps) = true :=
  C2_count_consistency stEmpty demoOps (by rfl)

/-- C3 counterexample: the claim fails as stated because `_generate_id`
recomputes `max(keys)+1` from the current contents: after organizations 1 and 2
are added and organization 2 (the maximum) is deleted, the next add hands out
id 2 again — an id once assigned is reassigned after deletion. -/
theorem C3_counterexample :
    (dictLookup (applyOps stEmpty reuseOps2).organizations 2).map (fun o => o.name)
        = some ("B") ∧
    dictLookup (applyOps stEmpty reuseOps3).organizations 2 = none ∧
    (dictLookup (applyOps stEmpty reuseOps4).organizations 2).map (fun o => o.name)
        = some ("C") :=
  ⟨rfl, rfl, rfl⟩

/-- C3 (amended): over every sequence of add and delete-organization
operations, ids assigned by adds are strictly positive (`_generate_id` returns
`max+1 ≥ 1`) and the live records of each collection keep strictly positive,
pairwise distinct ids; however an id can be reassigned after the record holding
it is deleted (see the counterexample), so the never-reuse clause is dropped. -/
theorem C3_ids_positive_distinct :
    (∀ (s : State) (ops : List Op), goodState s = true → goodState (applyOps s ops) = true) ∧
    (∀ (β : Type) (m : Coll β), 0 < generate_id m) := by
  constructor
  · intro s ops h
    induction ops generalizing s with
    | nil => exact h
    | cons op tl ih => exact ih _ (good_applyOp s op h)
  · intro β m
    exact generate_id_pos m

/-- Witness for C3 on the id-reuse run. -/
theorem C3_witness : goodState (applyOps stEmpty reuseOps4) = true :=
  C3_ids_positive_distinct.1 stEmpty reuseOps4 (by rfl)

/-- C4: creating an employee, customer or product naming an organization id
that is not present fails with the reference error (`Organization not found!`,
the spec's `ReferenceError`) and leaves the store — in particular the
corresponding collection — unchanged. -/
theorem C4_reference_enforcement (s : State) (orgId : Nat) (f l p nm cd pr : String)
    (ph em ct ad de mf : Option String) (t : String)
    (h : dictLookup s.organizations orgId = none) :
    add_employee_core s orgId f l p ph em t = (s, AddOutcome.refError) ∧
    add_customer_core s orgId nm ct ph em ad t = (s, AddOutcome.refError) ∧
    add_product_core s orgId nm cd pr de mf t = (s, AddOutcome.refError) := by
  refine ⟨?_, ?_, ?_⟩
  · unfold add_employee_core
    rw [h]
  · unfold add_customer_core
    rw [h]
  · unfold add_product_core
    rw [h]

/-- Witness for C4 with the absent organization id 999. -/
theorem C4_witness :
    add_employee_core stOne 999 ("Jane") ("Doe") ("Engineer") none none ("t")
        = (stOne, AddOutcome.refError) ∧
    add_customer_core stOne 999 ("Client") none none none none ("t")
        = (stOne, AddOutcome.refError) ∧
    add_product_core stOne 999 ("Widget") ("WX1") ("19.99") none none ("t")
        = (stOne, AddOutcome.refError) :=
  C4_reference_enforcement stOne 999 ("Jane") ("Doe") ("Engineer") ("Client") ("WX1")
    ("19.99") none none none none none none ("t") (by rfl)

/-- C5: `delete_organization` on an id that is not present in the organization
store fails with the not-found report (the spec's `NotFoundError`) and mutates
no collection: the store is returned unchanged. -/
theorem C5_delete_not_found (s : State) (orgId : Nat) (confirm : String)
    (h : dictLookup s.organizations orgId = none) :
    delete_organization s orgId confirm = (s, DeleteOutcome.notFound) := by
  unfold delete_organization
  rw [h]

/-- Witness for C5 with the absent organization id 999. -/
theorem C5_witness :
    delete_organization stOne 999 ("DELETE") = (stOne, DeleteOutcome.notFound) :=
  C5_delete_not_found stOne 999 ("DELETE") (by rfl)

/-- C6: saving a collection (keys written as decimal text, insertion order and
field values kept) and loading it back yields the identical mapping: the same
integer keys, the same field values, the same insertion order, with no error
reported. -/
theorem C6_save_load_round_trip (β : Type) (m : Coll β) :
    load_data (FileRead.object (encodeKeys m)) = (m, false) := by
  simp only [load_data]
  rw [decodeKeys_encodeKeys]

/-- C7 evaluated at the failing input: `_save_data` opens the file with mode
`w`, truncating it before `json.dump` runs, so a dump that fails before
emitting anything leaves the file observably empty — the previously persisted
content is lost, contradicting the claim (the error is reported, but that is
the only part that holds). -/
theorem C7_truncation_on_failed_save :
    save_data (some ("previously persisted")) ("new state") (some 0) = (some (""), true) ∧
    save_data (some ("previously persisted")) ("new state") (some 0)
        ≠ (some ("previously persisted"), true) := by
  constructor
  · rfl
  · decide

/-- C8: loading yields an empty collection with no error when the file is
absent; reports a load error and yields an empty collection when the file is
malformed (instead of aborting); and, when the file parses, restores every
identifier key as an integer (a key `int` cannot parse is caught by the same
handler: error reported, empty collection). -/
theorem C8_load_behavior :
    (∀ (β : Type), load_data (FileRead.absent : FileRead β) = ([], false)) ∧
    (∀ (β : Type), load_data (FileRead.malformed : FileRead β) = ([], true)) ∧
    (∀ (β : Type) (entries : List (String × β)) (m : Coll β),
        decodeKeys entries = some m → load_data (FileRead.object entries) = (m, false)) ∧
    (∀ (β : Type) (entries : List (String × β)),
        decodeKeys entries = none → load_data (FileRead.object entries) = ([], true)) := by
  refine ⟨fun β => rfl, fun β => rfl, ?_, ?_⟩
  · intro β entries m h
    simp only [load_data]
    rw [h]
  · intro β entries h
    simp only [load_data]
    rw [h]

/-- Witness for C8: textual keys restored as integer keys. -/
theorem C8_witness :
    load_data (FileRead.object [(("5"), orgA), (("12"), orgA)])
        = ([(5, orgA), (12, orgA)], false) :=
  C8_load_behavior.2.2.1 OrganizationR _ _ (by rfl)

/-- C9 counterexample: the claim fails as stated.  `cexScript` interrupts
(Ctrl-C) at the optional Phone prompt of `add_employee`; `_get_input` turns the
interrupt into `None`, the operation continues, and the employee is committed
with an empty phone — the store is not left as it was before the operation. -/
theorem C9_counterexample :
    Ev.interrupt ∈ cexScript ∧
    (add_employee stOne ("t9") cexScript).employees.length
        = stOne.employees.length + 1 ∧
    (add_employee stOne ("t9") cexScript).employees.map (fun kv => kv.2.phone)
        = stOne.employees.map (fun kv => kv.2.phone) ++ [("")] :=
  ⟨by decide, rfl, rfl⟩

/-- C9 (amended): an interactive abort at the organization selection or at a
required field leaves the store unchanged; an abort at an optional field is
indistinguishable from leaving it blank, so the record still commits with that
field empty.  In every case no partial record is inserted: each add operation
either leaves its collection exactly as it was or appends one fully validated
record — required fields nonempty, a present nonzero organization, and (for
products) a price the float parser accepted. -/
theorem C9_complete_commit_only :
    (∀ (s : State) (now : String) (evs : List Ev),
       (add_organization s now evs).organizations = s.organizations ∨
       ∃ k org, (add_organization s now evs).organizations = s.organizations ++ [(k, org)] ∧
         org.name ≠ "" ∧ org.oib ≠ "" ∧ org.address ≠ "") ∧
    (∀ (s : State) (now : String) (evs : List Ev),
       (add_employee s now evs).employees = s.employees ∨
       ∃ k e, (add_employee s now evs).employees = s.employees ++ [(k, e)] ∧
         e.first_name ≠ "" ∧ e.last_name ≠ "" ∧ e.position ≠ "" ∧
         (dictLookup s.organizations e.organization_id).isSome = true ∧
         e.organization_id ≠ 0) ∧
    (∀ (s : State) (now : String) (evs : List Ev),
       (add_customer s now evs).customers = s.customers ∨
       ∃ k cu, (add_customer s now evs).customers = s.customers ++ [(k, cu)] ∧
         cu.name ≠ "" ∧
         (dictLookup s.organizations cu.organization_id).isSome = true ∧
         cu.organization_id ≠ 0) ∧
    (∀ (pf : String → Option String) (s : State) (now : String) (evs : List Ev),
       (add_product pf s now evs).products = s.products ∨
       ∃ k pr, (add_product pf s now evs).products = s.products ++ [(k, pr)] ∧
         pr.name ≠ "" ∧ pr.code ≠ "" ∧ (∃ v, pf v = some pr.price) ∧
         (dictLookup s.organizations pr.organization_id).isSome = true ∧
         pr.organization_id ≠ 0) := by
  refine ⟨?_, ?_, ?_, ?_⟩
  · intro s now evs
    unfold add_organization
    rcases h1 : get_input_str true evs with ⟨o1, evs1⟩
    cases o1 with
    | none =>
      simp only [h1]
      exact Or.inl (by trivial)
    | some nm =>
      simp only [h1]
      have hnm := get_input_str_required_ne h1
      rw [if_neg hnm]
      rcases h2 : get_input_str true evs1 with ⟨o2, evs2⟩
      cases o2 with
      | none =>
        simp only [h2]
        exact Or.inl (by trivial)
      | some oib =>
        simp only [h2]
        have hoib := get_input_str_required_ne h2
        rw [if_neg hoib]
        rcases h3 : get_input_str true evs2 with ⟨o3, evs3⟩
        cases o3 with
        | none =>
          simp only [h3]
          exact Or.inl (by trivial)
        | some addr =>
          simp only [h3]
          have haddr := get_input_str_required_ne h3
          rw [if_neg haddr]
          rcases h4 : get_input_str false evs3 with ⟨w, evs4⟩
          simp only [h4]
          unfold add_organization_core
          dsimp only
          rw [dictSet_of_lookup_none _ (dictLookup_generate_id _)]
          exact Or.inr ⟨_, _, rfl, hnm, hoib, haddr⟩
  · intro s now evs
    unfold add_employee
    rcases h0 : get_valid_org_id s.organizations evs with ⟨og, evs1⟩
    cases og with
    | none =>
      simp only [h0]
      exact Or.inl (by trivial)
    | some g =>
      simp only [h0]
      by_cases hz : g = 0
      · rw [if_pos hz]
        exact Or.inl (by trivial)
      · rw [if_neg hz]
        have hsome : (dictLookup s.organizations g).isSome = true :=
          get_valid_org_id_some h0
        rcases h1 : get_input_str true evs1 with ⟨o1, evs2⟩
        cases o1 with
        | none =>
          simp only [h1]
          exact Or.inl (by trivial)
        | some fn =>
          simp only [h1]
          have hfn := get_input_str_required_ne h1
          rw [if_neg hfn]
          rcases h2 : get_input_str true evs2 with ⟨o2, evs3⟩
          cases o2 with
          | none =>
            simp only [h2]
            exact Or.inl (by trivial)
          | some ln =>
            simp only [h2]
            have hln := get_input_str_required_ne h2
            rw [if_neg hln]
            rcases h3 : get_input_str true evs3 with ⟨o3, evs4⟩
            cases o3 with
            | none =>
              simp only [h3]
              exact Or.inl (by trivial)
            | some ps =>
              simp only [h3]
              have hps := get_input_str_required_ne h3
              rw [if_neg hps]
              rcases h4 : get_input_str false evs4 with ⟨ph, evs5⟩
              simp only [h4]
              rcases h5 : get_input_str false evs5 with ⟨em, evs6⟩
              simp only [h5]
              obtain ⟨org, hl⟩ := Option.isSome_iff_exists.mp hsome
              unfold add_employee_core
              simp only [hl]
              rw [if_neg hz]
              dsimp only
              rw [dictSet_of_lookup_none _ (dictLookup_generate_id _)]
              exact Or.inr ⟨_, _, rfl, hfn, hln, hps, hsome, hz⟩
  · intro s now evs
    unfold add_customer
    rcases h0 : get_valid_org_id s.organizations evs with ⟨og, evs1⟩
    cases og with
    | none =>
      simp only [h0]
      exact Or.inl (by trivial)
    | some g =>
      simp only [h0]
      by_cases hz : g = 0
      · rw [if_pos hz]
        exact Or.inl (by trivial)
      · rw [if_neg hz]
        have hsome : (dictLookup s.organizations g).isSome = true :=
          get_valid_org_id_some h0
        rcases h1 : get_input_str true evs1 with ⟨o1, evs2⟩
        cases o1 with
        | none =>
          simp only [h1]
          exact Or.inl (by trivial)
        | some nm =>
          simp only [h1]
          have hnm := get_input_str_required_ne h1
          rw [if_neg hnm]
          rcases h2 : get_input_str false evs2 with ⟨ct, evs3⟩
          simp only [h2]
          rcases h3 : get_input_str false evs3 with ⟨ph, evs4⟩
          simp only [h3]
          rcases h4 : get_input_str false evs4 with ⟨em, evs5⟩
          simp only [h4]
          rcases h5 : get_input_str false evs5 with ⟨ad, evs6⟩
          simp only [h5]
          obtain ⟨org, hl⟩ := Option.isSome_iff_exists.mp hsome
          unfold add_customer_core
          simp only [hl]
          rw [if_neg hz]
          dsimp only
          rw [dictSet_of_lookup_none _ (dictLookup_generate_id _)]
          exact Or.inr ⟨_, _, rfl, hnm, hsome, hz⟩
  · intro pf s now evs
    unfold add_product
    rcases h0 : get_valid_org_id s.organizations evs with ⟨og, evs1⟩
    cases og with
    | none =>
      simp only [h0]
      exact Or.inl (by trivial)
    | some g =>
      simp only [h0]
      by_cases hz : g = 0
      · rw [if_pos hz]
        exact Or.inl (by trivial)
      · rw [if_neg hz]
        have hsome : (dictLookup s.organizations g).isSome = true :=
          get_valid_org_id_some h0
        rcases h1 : get_input_str true evs1 with ⟨o1, evs2⟩
        cases o1 with
        | none =>
          simp only [h1]
          exact Or.inl (by trivial)
        | some nm =>
          simp only [h1]
          have hnm := get_input_str_required_ne h1
          rw [if_neg hnm]
          rcases h2 : get_input_str true evs2 with ⟨o2, evs3⟩
          cases o2 with
          | none =>
            simp only [h2]
            exact Or.inl (by trivial)
          | some cd =>
            simp only [h2]
            have hcd := get_input_str_required_ne h2
            rw [if_neg hcd]
            rcases h3 : get_input_float pf true evs3 with ⟨o3, evs4⟩
            cases o3 with
            | none =>
              simp only [h3]
              exact Or.inl (by trivial)
            | some pr =>
              simp only [h3]
              obtain ⟨v, hv⟩ := get_input_float_some h3
              rcases h4 : get_input_str false evs4 with ⟨de, evs5⟩
              simp only [h4]
              rcases h5 : get_input_str false evs5 with ⟨mf, evs6⟩
              simp only [h5]
              obtain ⟨org, hl⟩ := Option.isSome_iff_exists.mp hsome
              unfold add_product_core
              simp only [hl]
              rw [if_neg hz]
              dsimp only
              rw [dictSet_of_lookup_none _ (dictLookup_generate_id _)]
              exact Or.inr ⟨_, _, rfl, hnm, hcd, ⟨v, hv⟩, hsome, hz⟩

/-- C10: whatever organization id is asked for and whatever the confirmation,
`delete_organization` leaves every employee, customer and product whose
`organization_id` differs from that id unchanged (same key, same field values,
same relative order), and every other organization's record — its counts
included — unchanged: the sub-list of survivors is the same before and after. -/
theorem C10_delete_frame (s : State) (orgId : Nat) (confirm : String) :
    (delete_organization s orgId confirm).1.organizations.filter
        (fun kv => kv.1 != orgId) =
      s.organizations.filter (fun kv => kv.1 != orgId) ∧
    (delete_organization s orgId confirm).1.employees.filter
        (fun kv => kv.2.organization_id != orgId) =
      s.employees.filter (fun kv => kv.2.organization_id != orgId) ∧
    (delete_organization s orgId confirm).1.customers.filter
        (fun kv => kv.2.organization_id != orgId) =
      s.customers.filter (fun kv => kv.2.organization_id != orgId) ∧
    (delete_organization s orgId confirm).1.products.filter
        (fun kv => kv.2.organization_id != orgId) =
      s.products.filter (fun kv => kv.2.organization_id != orgId) := by
  unfold delete_organization
  cases hl : dictLookup s.organizations orgId with
  | none =>
    simp only [hl]
    exact ⟨by trivial, by trivial, by trivial, by trivial⟩
  | some org =>
    simp only [hl]
    by_cases hz : orgId = 0
    · rw [if_pos hz]
      exact ⟨by trivial, by trivial, by trivial, by trivial⟩
    · rw [if_neg hz]
      by_cases hcf : confirm = "DELETE"
      · rw [if_pos hcf]
        dsimp only
        refine ⟨?_, ?_, ?_, ?_⟩ <;> rw [List.filter_filter] <;>
          simp only [Bool.and_self]
      · rw [if_neg hcf]
        exact ⟨rfl, rfl, rfl, rfl⟩

end CM
